import Mathlib

/-!
# Verification of the StatSnap interactive data dashboard (`src/app.py`)

A shallow embedding of the logical core of the dashboard: CSV loading with
pandas-style dtype inference (`pd.read_csv`), column classification by dtype
(`select_dtypes`), the numeric range filter, min/max description, value
counts, the Pearson correlation matrix, and CSV export (`to_csv`).

Modelling conventions:
* pandas floats are modelled as exact rationals `ℚ`; `NaN` (a missing value)
  is the `Val.missing` constructor.
* A CSV file is modelled at cell granularity (a header row plus records of
  cell strings); the comma/quote lexical layer of the CSV format is the
  library's concern and is not re-modelled.
* The numeral grammar recognised by the cell parsers follows the pandas C
  tokenizer: an optional sign, an integer and/or fractional digit part, an
  optional exponent, plus `inf`/`Infinity` literals; the default NA markers
  (`""`, `"NaN"`, `"nan"`, `"NULL"`, …) read as missing values.
-/

/-- The pandas dtypes that matter to the dashboard: `int64`, `float64`,
`bool`, `object`, plus `category` and `datetime64` which can only appear in
a hand-built frame (never from `pd.read_csv` without `parse_dates`). -/
inductive Dtype where
  | int | float | bool | object | category | datetime
deriving DecidableEq, Repr

/-- A single cell value of an in-memory dataframe.  `missing` models
`NaN`/`NaT`; finite numbers are exact rationals; `inf b` is the IEEE
infinity (`b` marks the negative one), which the loader produces for
`inf`/`Infinity` cells. -/
inductive Val where
  | num (q : ℚ)
  | str (s : String)
  | bool (b : Bool)
  | inf (neg : Bool)
  | missing
deriving DecidableEq, Repr

/-- An in-memory dataframe: a header of (column name, dtype) pairs and a list
of rows, each row a list of cell values aligned with the header. -/
structure DataFrame where
  header : List (String × Dtype)
  rows : List (List Val)
deriving DecidableEq, Repr

/-- A CSV file at cell granularity: the header line's fields and one list of
cell strings per data record.  An empty cell string is a missing value. -/
structure Csv where
  header : List String
  records : List (List String)
deriving DecidableEq, Repr

/-! ## Decimal cell parsing (the lexical layer of `pd.read_csv`) -/

/-- Is the character an ASCII digit? -/
def isDigitCh (c : Char) : Bool := 48 ≤ c.toNat && c.toNat ≤ 57

/-- Numeric value of an ASCII digit. -/
def digitVal (c : Char) : Nat := c.toNat - 48

/-- The ASCII digit for a value `0..9`. -/
def digitCh (n : Nat) : Char :=
  match n with
  | 0 => '0' | 1 => '1' | 2 => '2' | 3 => '3' | 4 => '4'
  | 5 => '5' | 6 => '6' | 7 => '7' | 8 => '8' | _ => '9'

/-- Accumulate a digit string into a natural number (base 10). -/
def foldDigits (cs : List Char) : Nat :=
  cs.foldl (fun a c => a * 10 + digitVal c) 0

/-- Parse a nonempty all-digit character list into a natural number. -/
def parseNatList (cs : List Char) : Option Nat :=
  if cs ≠ [] ∧ cs.all isDigitCh then some (foldDigits cs) else none

/-- Parse an optionally signed (`-` or `+`, as the pandas C parser accepts)
digit string into an integer. -/
def parseIntList (cs : List Char) : Option Int :=
  if cs.head? = some '-' then (parseNatList cs.tail).map (fun n => -(n : Int))
  else if cs.head? = some '+' then (parseNatList cs.tail).map (fun n => (n : Int))
  else (parseNatList cs).map (fun n => (n : Int))

/-- Parse an exponent suffix: nothing (exponent `0`), or `e`/`E` followed by
an optionally signed digit string. -/
def parseExpList (cs : List Char) : Option Int :=
  if cs = [] then some 0
  else if cs.head? = some 'e' || cs.head? = some 'E' then parseIntList cs.tail
  else none

/-- Scale a rational by `10 ^ e` (the identity when the numeral carried no
exponent). -/
def applyExp (q : ℚ) (e : Int) : ℚ :=
  if e = 0 then q else q * (10 : ℚ) ^ e

/-- Parse an unsigned decimal numeral in the grammar of the pandas C
tokenizer: an integer digit part and/or a dot-led fractional digit part (at
least one digit overall, so `5`, `5.`, `.5`, `5.5` are all accepted),
followed by an optional exponent. -/
def parseUDecList (cs : List Char) : Option ℚ :=
  let ip := cs.takeWhile isDigitCh
  let rest := cs.dropWhile isDigitCh
  if rest.head? = some '.' then
    let fp := rest.tail.takeWhile isDigitCh
    let rest2 := rest.tail.dropWhile isDigitCh
    if ip = [] ∧ fp = [] then none
    else (parseExpList rest2).map (fun e =>
      applyExp ((foldDigits ip : ℚ) + (foldDigits fp : ℚ) / 10 ^ fp.length) e)
  else if ip = [] then none
  else (parseExpList rest).map (fun e => applyExp ((foldDigits ip : ℚ)) e)

/-- Parse an optionally signed (`-` or `+`) decimal numeral into a rational
(the finite-float grammar the loader recognises). -/
def parseDecList (cs : List Char) : Option ℚ :=
  if cs.head? = some '-' then (parseUDecList cs.tail).map (fun q => -q)
  else if cs.head? = some '+' then parseUDecList cs.tail
  else parseUDecList cs

/-- Integer-cell parser on strings. -/
def parseIntCell (s : String) : Option Int := parseIntList s.data

/-- Float-cell parser on strings. -/
def parseFloatCell (s : String) : Option ℚ := parseDecList s.data

/-- The boolean literals `pd.read_csv` recognises. -/
def isBoolCell (s : String) : Bool :=
  s = "True" || s = "False" || s = "TRUE" || s = "FALSE" ||
    s = "true" || s = "false"

/-- Which boolean a boolean-like cell denotes. -/
def boolCellVal (s : String) : Bool :=
  s = "True" || s = "TRUE" || s = "true"

/-- The default missing-value markers of `pd.read_csv` (its documented
default `na_values` set): any such cell reads as `NaN`. -/
def isNaCell (s : String) : Bool :=
  s = "" || s = "#N/A" || s = "#N/A N/A" || s = "#NA" || s = "-1.#IND" ||
  s = "-1.#QNAN" || s = "-NaN" || s = "-nan" || s = "1.#IND" ||
  s = "1.#QNAN" || s = "<NA>" || s = "N/A" || s = "NA" || s = "NULL" ||
  s = "NaN" || s = "None" || s = "n/a" || s = "nan" || s = "null"

/-- An optionally signed, case-insensitive `inf`/`Infinity` literal, which
the loader converts to an IEEE infinity. -/
def isInfCell (s : String) : Bool :=
  let cs := if s.data.head? = some '-' || s.data.head? = some '+'
    then s.data.tail else s.data
  cs.map Char.toLower = ['i', 'n', 'f'] ||
    cs.map Char.toLower = ['i', 'n', 'f', 'i', 'n', 'i', 't', 'y']

/-- Does the loader read this cell as a float — a finite decimal numeral or
an infinity literal? -/
def isFloatCell (s : String) : Bool :=
  (parseFloatCell s).isSome || isInfCell s

/-! ## Column type inference (`pd.read_csv` dtype inference) -/

/-- Infer one column's dtype and typed values from its raw cells, following
`pd.read_csv`: a zero-row column is `object`; a column whose cells are all
boolean literals is `bool`; all-integer cells (no missing markers) give
`int64`; cells that are all float numerals (signed, with optional exponent,
or infinity literals) or missing markers give `float64` (markers become
`NaN`, hence an all-empty column is an all-`NaN` float column); anything
else is an `object` column of strings with missing markers as `NaN`. -/
def inferCol (cells : List String) : Dtype × List Val :=
  if cells = [] then (.object, [])
  else if cells.all isBoolCell then
    (.bool, cells.map (fun s => .bool (boolCellVal s)))
  else if cells.all (fun s => (parseIntCell s).isSome) then
    (.int, cells.map (fun s => .num (((parseIntCell s).getD 0 : ℤ) : ℚ)))
  else if cells.all (fun s => isNaCell s || isFloatCell s) then
    (.float, cells.map (fun s =>
      if isNaCell s then .missing
      else
        match parseFloatCell s with
        | some q => .num q
        | none => .inf (s.data.head? = some '-')))
  else
    (.object, cells.map (fun s => if isNaCell s then .missing else .str s))

/-- The `j`-th cell of a record, padded with the empty (missing) cell. -/
def cellAt (r : List String) (j : Nat) : String := r.getD j ""

/-- `pd.read_csv` (line 90 of `app.py`): build a typed dataframe from the
CSV cells, inferring each column's dtype independently. -/
def read_csv (c : Csv) : DataFrame :=
  let cols := (List.range c.header.length).map
    (fun j => inferCol (c.records.map (fun r => cellAt r j)))
  { header := c.header.zip (cols.map Prod.fst)
    rows := (List.range c.records.length).map
      (fun i => cols.map (fun cd => cd.2.getD i .missing)) }

/-! ## Column classification (`select_dtypes`, lines 113 and 137) -/

/-- Is the dtype selected by `select_dtypes(include="number")`? -/
def isNumericDtype (d : Dtype) : Bool :=
  match d with
  | .int => true | .float => true | _ => false

/-- Is the dtype selected by
`select_dtypes(include=["object", "category", "bool"])`? -/
def isCatDtype (d : Dtype) : Bool :=
  match d with
  | .object => true | .category => true | .bool => true | _ => false

/-- `numeric_cols = df.select_dtypes(include="number").columns`
(line 113 of `app.py`). -/
def numeric_cols (df : DataFrame) : List String :=
  (df.header.filter (fun p => isNumericDtype p.2)).map Prod.fst

/-- `cat_cols = df.select_dtypes(include=["object", "category", "bool"]).columns`
(line 137 of `app.py`). -/
def cat_cols (df : DataFrame) : List String :=
  (df.header.filter (fun p => isCatDtype p.2)).map Prod.fst

/-! ## The range filter (lines 117–134) -/

/-- The value a given row holds in column `j`. -/
def entryAt (r : List Val) (j : Nat) : Val := r.getD j .missing

/-- The cells of column `j`, top to bottom (`df[column]`). -/
def colCells (df : DataFrame) (j : Nat) : List Val :=
  df.rows.map (fun r => entryAt r j)

/-- Does the row pass the mask
`(df[num_column] >= lo) & (df[num_column] <= hi)`?  A `NaN` (missing) or
non-numeric entry compares `False` on both sides, as in pandas; a `±inf`
entry fails one of the two finite bounds, so it is excluded as well. -/
def passesFilter (j : Nat) (lo hi : ℚ) (r : List Val) : Bool :=
  match entryAt r j with
  | .num v => decide (lo ≤ v) && decide (v ≤ hi)
  | _ => false

/-- `df[(df[num_column] >= lo) & (df[num_column] <= hi)]`
(lines 127–130 of `app.py`): keep the rows passing the boolean mask. -/
def filterRange (df : DataFrame) (j : Nat) (lo hi : ℚ) : DataFrame :=
  { df with rows := df.rows.filter (passesFilter j lo hi) }

/-- `filtered_df` (lines 114–134 of `app.py`): when at least one numeric
column exists the range filter is applied to the chosen column, otherwise
`filtered_df = df.copy()`, i.e. the dataset unchanged. -/
def filtered_df (df : DataFrame) (j : Nat) (lo hi : ℚ) : DataFrame :=
  if numeric_cols df = [] then df else filterRange df j lo hi

/-! ## Min/max description of a column (lines 117–118) -/

/-- The non-missing numeric values of a column (pandas skips `NaN`). -/
def numsOf (cells : List Val) : List ℚ :=
  cells.filterMap (fun v => match v with | .num q => some q | _ => none)

/-- Minimum of a list of rationals, `none` when empty. -/
def listMin : List ℚ → Option ℚ
  | [] => none
  | x :: xs => some (match listMin xs with | none => x | some m => min x m)

/-- Maximum of a list of rationals, `none` when empty. -/
def listMax : List ℚ → Option ℚ
  | [] => none
  | x :: xs => some (match listMax xs with | none => x | some m => max x m)

/-- `df[column].min()` (line 117 of `app.py`): skip-`NaN` minimum; the `NaN`
result on an all-missing column is modelled as `none`. -/
def min_val (cells : List Val) : Option ℚ := listMin (numsOf cells)

/-- `df[column].max()` (line 118 of `app.py`). -/
def max_val (cells : List Val) : Option ℚ := listMax (numsOf cells)

/-- The spec's `describe(column)` → (min, max): the pair of skip-missing
extrema, with `none` — pandas' `NaN`, the spec's EmptyColumnError outcome —
when every value of the column is missing. -/
def describe (cells : List Val) : Option (ℚ × ℚ) :=
  match min_val cells, max_val cells with
  | some a, some b => some (a, b)
  | _, _ => none

/-! ## Value counts (lines 195–196) -/

/-- The non-missing values of a column (`value_counts` drops `NaN`). -/
def nonMissing (cells : List Val) : List Val :=
  cells.filter (fun v => v ≠ .missing)

/-- The distinct values of a list in order of first appearance, tracking the
already-seen values in an accumulator (the insertion pass of a hash table
that preserves insertion order). -/
def firstSeenAux : List Val → List Val → List Val
  | [], _ => []
  | x :: xs, seen =>
      if x ∈ seen then firstSeenAux xs seen
      else x :: firstSeenAux xs (x :: seen)

/-- The distinct values of a list in order of first appearance. -/
def firstSeen (l : List Val) : List Val := firstSeenAux l []

/-- One `(value, multiplicity)` pair per distinct non-missing value, in
first-seen order — the hash-table pass of `Series.value_counts`. -/
def countsList (cells : List Val) : List (Val × Nat) :=
  (firstSeen (nonMissing cells)).map
    (fun v => (v, (nonMissing cells).count v))

/-- `filtered_df[cat_column].value_counts()` (line 195 of `app.py`): count
the distinct non-missing values, then sort by descending count.  The sort is
modelled as a stable sort on the first-seen-ordered count table, realising
the tie-break order the spec designates. -/
def value_counts (cells : List Val) : List (Val × Nat) :=
  List.insertionSort (fun a b => b.2 ≤ a.2) (countsList cells)

/-! ## Pearson correlation (line 180) -/

/-- The pairwise-complete observations of two equally long columns: the row
pairs in which both entries are non-missing numbers (pandas excludes a row
from a pair's correlation when either side is `NaN`). -/
def pairedNums (x y : List Val) : List (ℚ × ℚ) :=
  (x.zip y).filterMap (fun p =>
    match p with
    | (.num a, .num b) => some (a, b)
    | _ => none)

/-- Mean of a list of rationals (`0` on the empty list, never used there). -/
def meanQ (l : List ℚ) : ℚ := l.sum / l.length

/-- The three centered second-moment sums `(Sxx, Sxy, Syy)` of a list of
observation pairs. -/
def devSums (l : List (ℚ × ℚ)) : ℚ × ℚ × ℚ :=
  let mx := meanQ (l.map Prod.fst)
  let my := meanQ (l.map Prod.snd)
  ((l.map (fun p => (p.1 - mx) ^ 2)).sum,
   (l.map (fun p => (p.1 - mx) * (p.2 - my))).sum,
   (l.map (fun p => (p.2 - my) ^ 2)).sum)

/-- Pearson correlation of two columns over their pairwise-complete
observations: `Sxy / √(Sxx·Syy)`, with pandas' `NaN` (modelled `none`) when
either centered sum of squares vanishes (zero variance, fewer than two
observations, or no observations at all). -/
noncomputable def pearson (x y : List Val) : Option ℝ :=
  let s := devSums (pairedNums x y)
  if s.1 = 0 ∨ s.2.2 = 0 then none
  else some ((s.2.1 : ℝ) / Real.sqrt ((s.1 : ℝ) * (s.2.2 : ℝ)))

/-- The positions of the numeric columns, in header order. -/
def numericIdxs (df : DataFrame) : List Nat :=
  (df.header.enum.filter (fun p => isNumericDtype p.2.2)).map Prod.fst

/-- `filtered_df[numeric_cols].corr()` (line 180 of `app.py`): the pairwise
Pearson correlation matrix over the numeric columns, in header order. -/
noncomputable def corr_matrix (df : DataFrame) : List (List (Option ℝ)) :=
  (numericIdxs df).map (fun i =>
    (numericIdxs df).map (fun j => pearson (colCells df i) (colCells df j)))

/-- What the correlation section of the dashboard renders. -/
inductive CorrOutcome where
  | matrix (m : List (List (Option ℝ)))
  | insufficientInfo
  | skipped

/-- Lines 148 and 178–190 of `app.py`: the correlation heatmap block runs
only inside `if len(numeric_cols) > 0`; within it, the matrix is computed
when at least two numeric columns exist, and otherwise the
"At least two numeric columns are required" info message is shown.  With no
numeric column at all the whole section is skipped. -/
noncomputable def corrSection (df vw : DataFrame) : CorrOutcome :=
  if (numeric_cols df).length > 0 then
    if (numeric_cols df).length ≥ 2 then .matrix (corr_matrix vw)
    else .insufficientInfo
  else .skipped

/-! ## CSV export (line 211) -/

/-- The decimal digits of a natural number, most significant first; the
first argument is recursion fuel, sufficient whenever `n < fuel`. -/
def natDigitsF (fuel n : Nat) : List Char :=
  match fuel with
  | 0 => []
  | fuel + 1 =>
      if n < 10 then [digitCh n]
      else natDigitsF fuel (n / 10) ++ [digitCh (n % 10)]

/-- The decimal digits of a natural number (`"0"` for zero). -/
def natDigits (n : Nat) : List Char := natDigitsF (n + 1) n

/-- A decimal exponent `k` with `d ∣ 10^k`, found by bounded search (it
exists within the bound whenever `d` divides a power of ten). -/
def decExp (d : Nat) : Nat :=
  (((List.range (d + 1)).find? (fun k => 10 ^ k % d == 0)).getD 0)

/-- Serialize a finite-decimal rational the way a `float64` column is
written: sign, integer part, `'.'`, and at least one fractional digit
(so an integral float prints as `1.0`, exactly as pandas prints floats). -/
def renderQ (q : ℚ) : List Char :=
  let k := max (decExp q.den) 1
  let N := q.num.natAbs * (10 ^ k / q.den)
  let fd := natDigits (N % 10 ^ k)
  (if q < 0 then ['-'] else []) ++ natDigits (N / 10 ^ k) ++
    '.' :: (List.replicate (k - fd.length) '0' ++ fd)

/-- Is the value a (non-missing) number? -/
def isNum (v : Val) : Bool :=
  match v with | .num _ => true | _ => false

/-- The strict order "bigger count first, and first-seen first among equal
counts" that the value-count table realises. -/
def vcOrder (idx : Val → Nat) (p q : Val × Nat) : Prop :=
  q.2 < p.2 ∨ (p.2 = q.2 ∧ idx p.1 < idx q.1)

/-- A column has (sample) variance zero when all its non-missing values
coincide. -/
def zeroVariance (cells : List Val) : Prop :=
  ∀ u ∈ numsOf cells, ∀ w ∈ numsOf cells, u = w

/-- A column has nonzero variance when two of its non-missing values
differ. -/
def hasVariance (cells : List Val) : Prop :=
  ∃ u ∈ numsOf cells, ∃ w ∈ numsOf cells, u ≠ w

/-- A rational with a finite decimal expansion: its denominator divides a
power of ten.  Every value a float column can hold is of this form, since it
was parsed from a decimal numeral. -/
def IsDec (q : ℚ) : Prop := ∃ k : Nat, q.den ∣ 10 ^ k

theorem mem_filterRange {df : DataFrame} {j : Nat} {lo hi : ℚ} {r : List Val} :
    r ∈ (filterRange df j lo hi).rows ↔
      r ∈ df.rows ∧ passesFilter j lo hi r = true := by
  unfold filterRange
  exact List.mem_filter

theorem passesFilter_iff {j : Nat} {lo hi : ℚ} {r : List Val} :
    passesFilter j lo hi r = true ↔
      ∃ v : ℚ, entryAt r j = .num v ∧ lo ≤ v ∧ v ≤ hi := by
  unfold passesFilter
  cases h : entryAt r j <;> simp

theorem numeric_cols_ne_nil {df : DataFrame} {j : Nat}
    (hj : j < df.header.length)
    (hnum : isNumericDtype (df.header.getD j ("", .object)).2 = true) :
    numeric_cols df ≠ [] := by
  intro hnil
  unfold numeric_cols at hnil
  rw [List.map_eq_nil_iff, List.filter_eq_nil_iff] at hnil
  have hmem : df.header.getD j ("", .object) ∈ df.header := by
    rw [List.getD_eq_getElem _ _ hj]
    exact List.getElem_mem hj
  exact hnil _ hmem hnum

/-- C1: for every dataset, numeric filter column `j` and bounds `lo ≤ hi`,
every row of the filtered view carries a non-missing numeric value `v` with
`lo ≤ v ≤ hi` in the filter column; every dataset row whose value in that
column is a number within the bounds is in the filtered view; and every row
whose value in that column is missing is excluded. -/
theorem C1_filter_sound_complete (df : DataFrame) (j : Nat) (lo hi : ℚ)
    (hj : j < df.header.length)
    (hnum : isNumericDtype (df.header.getD j ("", .object)).2 = true)
    (_hlohi : lo ≤ hi) :
    (∀ r ∈ (filtered_df df j lo hi).rows,
        ∃ v : ℚ, entryAt r j = .num v ∧ lo ≤ v ∧ v ≤ hi) ∧
    (∀ r ∈ df.rows,
        (∃ v : ℚ, entryAt r j = .num v ∧ lo ≤ v ∧ v ≤ hi) →
          r ∈ (filtered_df df j lo hi).rows) ∧
    (∀ r ∈ df.rows, entryAt r j = .missing →
        r ∉ (filtered_df df j lo hi).rows) := by
  have hne : numeric_cols df ≠ [] := numeric_cols_ne_nil hj hnum
  have hfd : filtered_df df j lo hi = filterRange df j lo hi := by
    unfold filtered_df
    exact if_neg hne
  rw [hfd]
  refine ⟨?_, ?_, ?_⟩
  · intro r hr
    exact passesFilter_iff.mp (mem_filterRange.mp hr).2
  · intro r hr hv
    exact mem_filterRange.mpr ⟨hr, passesFilter_iff.mpr hv⟩
  · intro r _ hmiss hr
    obtain ⟨v, hv, -⟩ := passesFilter_iff.mp (mem_filterRange.mp hr).2
    rw [hmiss] at hv
    exact Val.noConfusion hv

theorem C1_filter_sound_complete_witness :
    (0 : Nat) < (read_csv ⟨["a"], [["1"], [""], ["2"]]⟩).header.length ∧
    isNumericDtype
      ((read_csv ⟨["a"], [["1"], [""], ["2"]]⟩).header.getD 0 ("", .object)).2
        = true ∧
    ((1 : ℚ) ≤ 2) ∧
    (∀ r ∈ (filtered_df (read_csv ⟨["a"], [["1"], [""], ["2"]]⟩) 0 1 2).rows,
        ∃ v : ℚ, entryAt r 0 = .num v ∧ 1 ≤ v ∧ v ≤ 2) :=
  ⟨by decide, by decide, by norm_num,
    (C1_filter_sound_complete (read_csv ⟨["a"], [["1"], [""], ["2"]]⟩) 0 1 2
      (by decide) (by decide) (by norm_num)).1⟩

/-! ## C6: fallback when no numeric column exists -/

/-- C6: when the dataset has no numeric columns, the filtered view is the
dataset itself, unchanged — same rows and same columns (the `df.copy()`
fallback of lines 132–134), an intended fallback rather than an error. -/
theorem C6_no_numeric_fallback (df : DataFrame) (j : Nat) (lo hi : ℚ)
    (h : numeric_cols df = []) : filtered_df df j lo hi = df := by
  unfold filtered_df
  exact if_pos h

theorem C6_no_numeric_fallback_witness :
    numeric_cols (read_csv ⟨["city"], [["NY"], ["LA"]]⟩) = [] ∧
    filtered_df (read_csv ⟨["city"], [["NY"], ["LA"]]⟩) 0 0 1 =
      read_csv ⟨["city"], [["NY"], ["LA"]]⟩ :=
  ⟨by decide, C6_no_numeric_fallback _ 0 0 1 (by decide)⟩

/-! ## C10: filtering is effect-free and structure-preserving -/

/-- C10: computing the filtered view does not modify the dataset (the
embedding of the pipeline is a pure function of `df`, mirroring that
`df[mask]` allocates a new frame and `df.copy()` copies); the filtered view
has exactly the dataset's columns in the same order, and its rows are a
subsequence of the dataset's rows in their original relative order. -/
theorem C10_filter_frame (df : DataFrame) (j : Nat) (lo hi : ℚ) :
    (filtered_df df j lo hi).header = df.header ∧
    (filtered_df df j lo hi).rows.Sublist df.rows := by
  unfold filtered_df filterRange
  split
  · exact ⟨rfl, List.Sublist.refl _⟩
  · exact ⟨rfl, List.filter_sublist _⟩

/-! ## C2: full-range filtering -/

theorem listMin_le {l : List ℚ} {m : ℚ} (h : listMin l = some m) :
    ∀ x ∈ l, m ≤ x := by
  induction l generalizing m with
  | nil => exact absurd h (by simp [listMin])
  | cons a t ih =>
    intro x hx
    rw [listMin] at h
    cases ht : listMin t with
    | none =>
      cases t with
      | nil =>
        rw [ht] at h
        obtain rfl : a = m := by simpa using h
        have hxa : x = a := by simpa using hx
        exact le_of_eq hxa.symm
      | cons b t' => exact absurd ht (by rw [listMin]; simp)
    | some mt =>
      rw [ht] at h
      obtain rfl : min a mt = m := by simpa using h
      rcases List.mem_cons.mp hx with rfl | hx'
      · exact min_le_left _ _
      · exact le_trans (min_le_right _ _) (ih ht x hx')

theorem listMax_ge {l : List ℚ} {m : ℚ} (h : listMax l = some m) :
    ∀ x ∈ l, x ≤ m := by
  induction l generalizing m with
  | nil => exact absurd h (by simp [listMax])
  | cons a t ih =>
    intro x hx
    rw [listMax] at h
    cases ht : listMax t with
    | none =>
      cases t with
      | nil =>
        rw [ht] at h
        obtain rfl : a = m := by simpa using h
        have hxa : x = a := by simpa using hx
        exact le_of_eq hxa
      | cons b t' => exact absurd ht (by rw [listMax]; simp)
    | some mt =>
      rw [ht] at h
      obtain rfl : max a mt = m := by simpa using h
      rcases List.mem_cons.mp hx with rfl | hx'
      · exact le_max_left _ _
      · exact le_trans (ih ht x hx') (le_max_right _ _)

/-- C2 as stated is false: on a CSV whose numeric column has a missing
value, filtering over the full observed range `[min, max]` drops the row
with the missing value, so the filtered view has fewer rows than the
dataset. -/
theorem C2_counterexample :
    numeric_cols (read_csv ⟨["a"], [["1"], [""], ["2"]]⟩) = ["a"] ∧
    min_val (colCells (read_csv ⟨["a"], [["1"], [""], ["2"]]⟩) 0) = some 1 ∧
    max_val (colCells (read_csv ⟨["a"], [["1"], [""], ["2"]]⟩) 0) = some 2 ∧
    (filtered_df (read_csv ⟨["a"], [["1"], [""], ["2"]]⟩) 0 1 2).rows.length
      ≠ (read_csv ⟨["a"], [["1"], [""], ["2"]]⟩).rows.length := by
  refine ⟨by decide, by decide, by decide, by decide⟩

/-- C2 amended: when the chosen filter column is missing-free (every entry a
number) and the filter interval is the full observed range
`[min(column), max(column)]`, the filtered view has exactly the dataset's
row count. -/
theorem C2_full_range_amended (df : DataFrame) (j : Nat) (lo hi : ℚ)
    (hnum : ∀ v ∈ colCells df j, isNum v = true)
    (hmin : min_val (colCells df j) = some lo)
    (hmax : max_val (colCells df j) = some hi) :
    (filterRange df j lo hi).rows.length = df.rows.length := by
  unfold filterRange
  simp only
  have hall : ∀ r ∈ df.rows, passesFilter j lo hi r = true := by
    intro r hr
    have hcell : entryAt r j ∈ colCells df j := List.mem_map_of_mem _ hr
    obtain ⟨v, hv⟩ : ∃ v : ℚ, entryAt r j = .num v := by
      have := hnum _ hcell
      cases hc : entryAt r j <;> rw [hc] at this <;> simp [isNum] at this
      exact ⟨_, rfl⟩
    have hvmem : v ∈ numsOf (colCells df j) :=
      List.mem_filterMap.mpr ⟨entryAt r j, hcell, by rw [hv]⟩
    refine passesFilter_iff.mpr ⟨v, hv, ?_, ?_⟩
    · exact listMin_le hmin v hvmem
    · exact listMax_ge hmax v hvmem
  rw [List.filter_eq_self.mpr hall]

theorem C2_full_range_amended_witness :
    (∀ v ∈ colCells (read_csv ⟨["a"], [["10"], ["30"], ["20"]]⟩) 0,
        isNum v = true) ∧
    min_val (colCells (read_csv ⟨["a"], [["10"], ["30"], ["20"]]⟩) 0)
      = some 10 ∧
    max_val (colCells (read_csv ⟨["a"], [["10"], ["30"], ["20"]]⟩) 0)
      = some 30 ∧
    (filterRange (read_csv ⟨["a"], [["10"], ["30"], ["20"]]⟩) 0 10 30).rows.length
      = (read_csv ⟨["a"], [["10"], ["30"], ["20"]]⟩).rows.length :=
  ⟨by decide, by decide, by decide,
    C2_full_range_amended _ 0 10 30 (by decide) (by decide) (by decide)⟩

/-! ## Loading a header-only CSV -/

theorem zip_range_const {α β : Type} (l : List α) (b : β) :
    l.zip ((List.range l.length).map (fun _ => b)) = l.map (fun a => (a, b)) := by
  induction l with
  | nil => rfl
  | cons a t ih =>
    simp only [List.length_cons, List.range_succ_eq_map, List.map_cons,
      List.map_map, List.zip_cons_cons, List.map_cons]
    rw [show ((fun _ => b) ∘ Nat.succ : Nat → β) = (fun _ => b) from rfl, ih]

/-- A header-only CSV loads as: every column present, dtype `object`
(pandas gives empty columns the `object` dtype), and zero rows. -/
theorem read_csv_header_only (c : Csv) (h : c.records = []) :
    read_csv c = ⟨c.header.map (fun s => (s, Dtype.object)), []⟩ := by
  unfold read_csv
  rw [h]
  simp only [List.map_nil, List.length_nil, List.range_zero]
  have hinf : inferCol ([] : List String) = (.object, []) := rfl
  refine congrArg₂ DataFrame.mk ?_ rfl
  rw [List.map_map]
  rw [show (Prod.fst ∘ fun _ : Nat => inferCol ([] : List String))
      = (fun _ : Nat => Dtype.object) from funext fun _ => rfl]
  exact zip_range_const c.header Dtype.object

theorem numeric_cols_header_only (c : Csv) (h : c.records = []) :
    numeric_cols (read_csv c) = [] := by
  rw [read_csv_header_only c h]
  unfold numeric_cols
  have hf : (List.map (fun s => (s, Dtype.object)) c.header).filter
      (fun p => isNumericDtype p.2) = [] := by
    rw [List.filter_eq_nil_iff]
    intro p hp
    obtain ⟨s, -, rfl⟩ := List.mem_map.mp hp
    simp [isNumericDtype]
  simp only [hf, List.map_nil]

theorem cat_cols_header_only (c : Csv) (h : c.records = []) :
    cat_cols (read_csv c) = c.header := by
  rw [read_csv_header_only c h]
  unfold cat_cols
  have hf : (List.map (fun s => (s, Dtype.object)) c.header).filter
      (fun p => isCatDtype p.2) = List.map (fun s => (s, Dtype.object)) c.header := by
    rw [List.filter_eq_self]
    intro p hp
    obtain ⟨s, -, rfl⟩ := List.mem_map.mp hp
    simp [isCatDtype]
  simp only [hf, List.map_map]
  rw [show (Prod.fst ∘ fun s : String => (s, Dtype.object)) = id from
    funext fun s => rfl, List.map_id]

/-! ## C3: loading and aggregating a header-only CSV -/

/-- C3 as stated is false on the code: a header-only CSV loads with zero
rows, but its columns load with the `object` dtype, so no numeric column
exists at all — `describe`'s min/max path is never invoked — and the one
aggregate that is invoked on such a dataset, `value_counts` over the
(categorical) empty column, returns a plain empty table rather than
reporting any EmptyColumnError. -/
theorem C3_counterexample :
    (read_csv ⟨["a"], []⟩).rows.length = 0 ∧
    numeric_cols (read_csv ⟨["a"], []⟩) = [] ∧
    cat_cols (read_csv ⟨["a"], []⟩) = ["a"] ∧
    value_counts (colCells (read_csv ⟨["a"], []⟩) 0) = [] := by
  refine ⟨by decide, by decide, by decide, by decide⟩

/-- C3 amended: a header-only CSV loads successfully with zero rows; its
columns are all classified `object`, so no numeric aggregate is invoked;
and every aggregate over the empty view completes without fault, yielding
the empty marker — `describe` gives the `none` (pandas `NaN`) result that
stands for the spec's EmptyColumnError, and `value_counts` gives an empty
table. -/
theorem C3_header_only_amended (c : Csv) (h : c.records = []) :
    (read_csv c).rows.length = 0 ∧
    numeric_cols (read_csv c) = [] ∧
    (∀ j : Nat, describe (colCells (read_csv c) j) = none) ∧
    (∀ j : Nat, value_counts (colCells (read_csv c) j) = []) := by
  refine ⟨?_, numeric_cols_header_only c h, ?_, ?_⟩
  · rw [read_csv_header_only c h]
    rfl
  · intro j
    rw [read_csv_header_only c h]
    rfl
  · intro j
    rw [read_csv_header_only c h]
    rfl

theorem C3_header_only_amended_witness :
    (⟨["a"], []⟩ : Csv).records = [] ∧
    (read_csv ⟨["a"], []⟩).rows.length = 0 ∧
    describe (colCells (read_csv ⟨["a"], []⟩) 0) = none :=
  ⟨rfl, (C3_header_only_amended ⟨["a"], []⟩ rfl).1,
    (C3_header_only_amended ⟨["a"], []⟩ rfl).2.2.1 0⟩

/-! ## C5: correlation with fewer than two numeric columns -/

/-- C5 as stated is false on the code: with zero numeric columns the whole
numeric-analysis section — including the `st.info("At least two numeric
columns are required…")` message — is skipped (it sits inside
`if len(numeric_cols) > 0`), so no "insufficient columns" report is shown
even though the dataset has fewer than 2 numeric columns. -/
theorem C5_counterexample :
    numeric_cols (read_csv ⟨["city"], [["NY"]]⟩) = [] ∧
    corrSection (read_csv ⟨["city"], [["NY"]]⟩)
      (filtered_df (read_csv ⟨["city"], [["NY"]]⟩) 0 0 0) =
        CorrOutcome.skipped ∧
    CorrOutcome.skipped ≠ CorrOutcome.insufficientInfo := by
  have h : numeric_cols (read_csv ⟨["city"], [["NY"]]⟩) = [] := by decide
  refine ⟨h, ?_, fun hc => CorrOutcome.noConfusion hc⟩
  unfold corrSection
  rw [h]
  simp

/-- C5 amended: with fewer than two numeric columns no correlation matrix
is ever computed; the "insufficient columns" informational message is shown
exactly when there is one numeric column (with zero numeric columns the
correlation section is skipped altogether, along with the rest of the
numeric analysis). -/
theorem C5_insufficient_amended (df vw : DataFrame)
    (h : (numeric_cols df).length < 2) :
    (∀ m, corrSection df vw ≠ CorrOutcome.matrix m) ∧
    ((numeric_cols df).length = 1 →
      corrSection df vw = CorrOutcome.insufficientInfo) := by
  constructor
  · intro m hm
    unfold corrSection at hm
    split at hm
    · split at hm
      · next hge => omega
      · exact CorrOutcome.noConfusion hm
    · exact CorrOutcome.noConfusion hm
  · intro h1
    unfold corrSection
    rw [h1]
    norm_num

theorem C5_insufficient_amended_witness :
    (numeric_cols (read_csv ⟨["a", "city"], [["1", "NY"]]⟩)).length < 2 ∧
    corrSection (read_csv ⟨["a", "city"], [["1", "NY"]]⟩)
      (filtered_df (read_csv ⟨["a", "city"], [["1", "NY"]]⟩) 0 1 1) =
        CorrOutcome.insufficientInfo :=
  ⟨by decide,
    (C5_insufficient_amended (read_csv ⟨["a", "city"], [["1", "NY"]]⟩)
      (filtered_df (read_csv ⟨["a", "city"], [["1", "NY"]]⟩) 0 1 1)
      (by decide)).2 (by decide)⟩

/-! ## C9: column classification -/

/-- C9 as stated is false on the code: a column with zero rows is not
excluded from both classification sets — `pd.read_csv` gives an empty
column the `object` dtype, so `select_dtypes(["object","category","bool"])`
places it in the categorical set. -/
theorem C9_counterexample :
    (read_csv ⟨["a"], []⟩).rows.length = 0 ∧
    numeric_cols (read_csv ⟨["a"], []⟩) = [] ∧
    cat_cols (read_csv ⟨["a"], []⟩) ≠ [] := by
  refine ⟨by decide, by decide, by decide⟩

/-- C9 amended: with distinct column names, the numeric and categorical
sets are disjoint; boolean columns are classified categorical and not
numeric; an unsupported dtype such as `datetime64` lands in neither set;
but a column with zero rows loads as an `object` column and is classified
categorical rather than excluded from both sets. -/
theorem C9_classification_amended (df : DataFrame)
    (hnodup : (df.header.map Prod.fst).Nodup) :
    (∀ c ∈ numeric_cols df, c ∉ cat_cols df) ∧
    (∀ p ∈ df.header, p.2 = Dtype.bool →
        p.1 ∈ cat_cols df ∧ p.1 ∉ numeric_cols df) ∧
    (∀ p ∈ df.header, p.2 = Dtype.datetime →
        p.1 ∉ numeric_cols df ∧ p.1 ∉ cat_cols df) ∧
    (∀ c : Csv, c.records = [] →
        numeric_cols (read_csv c) = [] ∧
        cat_cols (read_csv c) = c.header) := by
  have hinj := List.inj_on_of_nodup_map hnodup
  have hnum : ∀ c, c ∈ numeric_cols df ↔
      ∃ p ∈ df.header, isNumericDtype p.2 = true ∧ p.1 = c := by
    intro c
    unfold numeric_cols
    simp only [List.mem_map, List.mem_filter]
    constructor
    · rintro ⟨p, ⟨hp, hq⟩, rfl⟩
      exact ⟨p, hp, hq, rfl⟩
    · rintro ⟨p, hp, hq, rfl⟩
      exact ⟨p, ⟨hp, hq⟩, rfl⟩
  have hcat : ∀ c, c ∈ cat_cols df ↔
      ∃ p ∈ df.header, isCatDtype p.2 = true ∧ p.1 = c := by
    intro c
    unfold cat_cols
    simp only [List.mem_map, List.mem_filter]
    constructor
    · rintro ⟨p, ⟨hp, hq⟩, rfl⟩
      exact ⟨p, hp, hq, rfl⟩
    · rintro ⟨p, hp, hq, rfl⟩
      exact ⟨p, ⟨hp, hq⟩, rfl⟩
  refine ⟨?_, ?_, ?_, ?_⟩
  · intro c hc1 hc2
    obtain ⟨p, hp, hpnum, rfl⟩ := (hnum c).mp hc1
    obtain ⟨q, hq, hqcat, hpq⟩ := (hcat p.1).mp hc2
    have : q = p := hinj hq hp hpq
    subst this
    cases hd : q.2 <;> rw [hd] at hpnum hqcat <;>
      simp [isNumericDtype, isCatDtype] at hpnum hqcat
  · intro p hp hbool
    constructor
    · exact (hcat p.1).mpr ⟨p, hp, by rw [hbool]; rfl, rfl⟩
    · intro hmem
      obtain ⟨q, hq, hqnum, hpq⟩ := (hnum p.1).mp hmem
      have : q = p := hinj hq hp hpq
      subst this
      rw [hbool] at hqnum
      exact Bool.noConfusion hqnum
  · intro p hp hdt
    constructor
    · intro hmem
      obtain ⟨q, hq, hqnum, hpq⟩ := (hnum p.1).mp hmem
      have : q = p := hinj hq hp hpq
      subst this
      rw [hdt] at hqnum
      exact Bool.noConfusion hqnum
    · intro hmem
      obtain ⟨q, hq, hqcat, hpq⟩ := (hcat p.1).mp hmem
      have : q = p := hinj hq hp hpq
      subst this
      rw [hdt] at hqcat
      exact Bool.noConfusion hqcat
  · intro c hc
    exact ⟨numeric_cols_header_only c hc, cat_cols_header_only c hc⟩

theorem C9_classification_amended_witness :
    ((DataFrame.mk [("a", .int), ("b", .bool), ("c", .datetime)]
        []).header.map Prod.fst).Nodup ∧
    ("b" ∈ cat_cols (DataFrame.mk [("a", .int), ("b", .bool), ("c", .datetime)] []) ∧
     "b" ∉ numeric_cols (DataFrame.mk [("a", .int), ("b", .bool), ("c", .datetime)] [])) :=
  ⟨by decide,
    (C9_classification_amended
        (DataFrame.mk [("a", .int), ("b", .bool), ("c", .datetime)] [])
        (by decide)).2.1 ("b", .bool) (by decide) rfl⟩

/-! ## C7: value counts -/

theorem mem_firstSeenAux {a : Val} :
    ∀ {l seen : List Val}, a ∈ firstSeenAux l seen ↔ a ∈ l ∧ a ∉ seen := by
  intro l
  induction l with
  | nil => intro seen; simp [firstSeenAux]
  | cons x xs ih =>
    intro seen
    unfold firstSeenAux
    split
    · next hx =>
      rw [ih]
      constructor
      · rintro ⟨hmem, hnot⟩
        exact ⟨List.mem_cons_of_mem x hmem, hnot⟩
      · rintro ⟨hmem, hnot⟩
        rcases List.mem_cons.mp hmem with rfl | hmem'
        · exact absurd hx hnot
        · exact ⟨hmem', hnot⟩
    · next hx =>
      simp only [List.mem_cons, ih]
      constructor
      · rintro (rfl | ⟨hmem, hnot⟩)
        · exact ⟨Or.inl rfl, hx⟩
        · exact ⟨Or.inr hmem, fun hs => hnot (Or.inr hs)⟩
      · rintro ⟨rfl | hmem, hnot⟩
        · exact Or.inl rfl
        · by_cases hax : a = x
          · exact Or.inl hax
          · exact Or.inr ⟨hmem, fun hs => hs.elim hax hnot⟩

theorem nodup_firstSeenAux :
    ∀ (l seen : List Val), (firstSeenAux l seen).Nodup := by
  intro l
  induction l with
  | nil => intro seen; exact List.nodup_nil
  | cons x xs ih =>
    intro seen
    unfold firstSeenAux
    split
    · exact ih seen
    · refine List.Nodup.cons ?_ (ih (x :: seen))
      intro hmem
      exact (mem_firstSeenAux.mp hmem).2 (List.Mem.head _)

theorem pairwise_indexOf_firstSeenAux :
    ∀ (l seen : List Val),
      (firstSeenAux l seen).Pairwise
        (fun a b => l.indexOf a < l.indexOf b) := by
  intro l
  induction l with
  | nil => intro seen; exact List.Pairwise.nil
  | cons x xs ih =>
    intro seen
    unfold firstSeenAux
    split
    · next hx =>
      refine (ih seen).imp_of_mem ?_
      intro a b ha hb hab
      have hax : a ≠ x := fun h => (mem_firstSeenAux.mp ha).2 (h ▸ hx)
      have hbx : b ≠ x := fun h => (mem_firstSeenAux.mp hb).2 (h ▸ hx)
      rw [List.indexOf_cons_ne _ (Ne.symm hax), List.indexOf_cons_ne _ (Ne.symm hbx)]
      exact Nat.succ_lt_succ hab
    · next hx =>
      refine List.Pairwise.cons ?_ ?_
      · intro b hb
        have hbx : b ≠ x := fun h =>
          (mem_firstSeenAux.mp hb).2 (h ▸ List.Mem.head _)
        rw [List.indexOf_cons_self, List.indexOf_cons_ne _ (Ne.symm hbx)]
        exact Nat.succ_pos _
      · refine (ih (x :: seen)).imp_of_mem ?_
        intro a b ha hb hab
        have hax : a ≠ x := fun h =>
          (mem_firstSeenAux.mp ha).2 (h ▸ List.Mem.head _)
        have hbx : b ≠ x := fun h =>
          (mem_firstSeenAux.mp hb).2 (h ▸ List.Mem.head _)
        rw [List.indexOf_cons_ne _ (Ne.symm hax), List.indexOf_cons_ne _ (Ne.symm hbx)]
        exact Nat.succ_lt_succ hab

theorem orderedInsert_pairwise_vcOrder (idx : Val → Nat) (x : Val × Nat) :
    ∀ l : List (Val × Nat), l.Pairwise (vcOrder idx) →
      (∀ b ∈ l, idx x.1 < idx b.1) →
      (List.orderedInsert (fun a b => b.2 ≤ a.2) x l).Pairwise (vcOrder idx) := by
  intro l
  induction l with
  | nil => intro _ _; exact List.pairwise_singleton _ x
  | cons b t ih =>
    intro hpair hidx
    rw [List.orderedInsert]
    split
    · next hr =>
      refine List.Pairwise.cons ?_ hpair
      intro c hc
      have hcb : c = b ∨ c ∈ t := List.mem_cons.mp hc
      have hcle : c.2 ≤ x.2 := by
        rcases hcb with rfl | hct
        · exact hr
        · have := (List.pairwise_cons.mp hpair).1 c hct
          rcases this with h1 | ⟨h1, -⟩
          · exact le_trans (le_of_lt h1) hr
          · exact le_trans (le_of_eq h1.symm) hr
      rcases lt_or_eq_of_le hcle with hlt | heq
      · exact Or.inl hlt
      · exact Or.inr ⟨heq.symm, hidx c hc⟩
    · next hr =>
      have hbx : x.2 < b.2 := lt_of_not_le hr
      refine List.Pairwise.cons ?_ (ih (List.pairwise_cons.mp hpair).2
        (fun c hct => hidx c (List.mem_cons_of_mem b hct)))
      intro c hc
      rcases (List.mem_orderedInsert _).mp hc with rfl | hct
      · exact Or.inl hbx
      · exact (List.pairwise_cons.mp hpair).1 c hct

theorem insertionSort_pairwise_vcOrder (idx : Val → Nat) :
    ∀ l : List (Val × Nat),
      l.Pairwise (fun p q => idx p.1 < idx q.1) →
      (List.insertionSort (fun a b => b.2 ≤ a.2) l).Pairwise (vcOrder idx) := by
  intro l
  induction l with
  | nil => intro _; exact List.Pairwise.nil
  | cons x t ih =>
    intro hpair
    rw [List.insertionSort]
    refine orderedInsert_pairwise_vcOrder idx x _
      (ih (List.pairwise_cons.mp hpair).2) ?_
    intro b hb
    exact (List.pairwise_cons.mp hpair).1 b ((List.mem_insertionSort _).mp hb)

theorem countsList_map_fst (cells : List Val) :
    (countsList cells).map Prod.fst = firstSeen (nonMissing cells) := by
  unfold countsList
  rw [List.map_map]
  exact List.map_id'' (fun _ => rfl) _

/-- C7: the value-count table over a column has exactly one `(value, count)`
pair per distinct non-missing value of the column, each count being the
number of occurrences of that value; pairs are ordered by descending count,
with ties broken by the order in which the values first appear. -/
theorem C7_value_counts_table (cells : List Val) :
    ((value_counts cells).map Prod.fst).Nodup ∧
    (∀ v : Val,
        v ∈ (value_counts cells).map Prod.fst ↔ v ≠ .missing ∧ v ∈ cells) ∧
    (∀ p ∈ value_counts cells, p.2 = cells.count p.1) ∧
    (value_counts cells).Pairwise (fun p q =>
      q.2 < p.2 ∨ (p.2 = q.2 ∧
        (nonMissing cells).indexOf p.1 < (nonMissing cells).indexOf q.1)) := by
  have hperm : (value_counts cells).Perm (countsList cells) :=
    List.perm_insertionSort _ _
  have hpermmap : ((value_counts cells).map Prod.fst).Perm
      (firstSeen (nonMissing cells)) := by
    rw [← countsList_map_fst]
    exact hperm.map Prod.fst
  refine ⟨?_, ?_, ?_, ?_⟩
  · exact hpermmap.nodup_iff.mpr (nodup_firstSeenAux _ _)
  · intro v
    rw [hpermmap.mem_iff]
    unfold firstSeen
    rw [mem_firstSeenAux]
    unfold nonMissing
    simp [List.mem_filter, and_comm]
  · intro p hp
    have hp' : p ∈ countsList cells := hperm.mem_iff.mp hp
    unfold countsList at hp'
    obtain ⟨v, hv, rfl⟩ := List.mem_map.mp hp'
    have hvmem : v ∈ nonMissing cells := mem_firstSeenAux.mp hv |>.1
    have hvne : v ≠ .missing := by
      have := (List.mem_filter.mp hvmem).2
      simpa using this
    unfold nonMissing
    exact List.count_filter (by simpa using hvne)
  · have hin : (countsList cells).Pairwise
        (fun p q => (nonMissing cells).indexOf p.1 <
          (nonMissing cells).indexOf q.1) := by
      unfold countsList
      refine List.Pairwise.map _ ?_ (pairwise_indexOf_firstSeenAux _ [])
      intro a b hab
      exact hab
    exact insertionSort_pairwise_vcOrder
      (fun v => (nonMissing cells).indexOf v) _ hin

/-! ## C4: the Pearson correlation matrix -/

theorem list_cauchy_schwarz :
    ∀ l : List (ℚ × ℚ),
      ((l.map (fun p => p.1 * p.2)).sum) ^ 2 ≤
        ((l.map (fun p => p.1 ^ 2)).sum) * ((l.map (fun p => p.2 ^ 2)).sum) := by
  intro l
  induction l with
  | nil => simp
  | cons p t ih =>
    have hA : 0 ≤ (t.map (fun p => p.1 ^ 2)).sum :=
      List.sum_nonneg (by
        intro x hx
        obtain ⟨q, -, rfl⟩ := List.mem_map.mp hx
        exact sq_nonneg _)
    have hB : 0 ≤ (t.map (fun p => p.2 ^ 2)).sum :=
      List.sum_nonneg (by
        intro x hx
        obtain ⟨q, -, rfl⟩ := List.mem_map.mp hx
        exact sq_nonneg _)
    simp only [List.map_cons, List.sum_cons]
    set a := p.1 with ha
    set b := p.2 with hb
    set A := (t.map (fun p => p.1 ^ 2)).sum with hAdef
    set B := (t.map (fun p => p.2 ^ 2)).sum with hBdef
    set C := (t.map (fun p => p.1 * p.2)).sum with hCdef
    have key : 2 * a * b * C ≤ A * b ^ 2 + B * a ^ 2 := by
      rcases eq_or_lt_of_le hA with hA0 | hApos
      · have hC : C = 0 := by nlinarith [sq_nonneg C]
        rw [hC, ← hA0]
        nlinarith [mul_nonneg hB (sq_nonneg a)]
      · have h2 : 0 ≤ (A * b - a * C) ^ 2 + a ^ 2 * (A * B - C ^ 2) :=
          add_nonneg (sq_nonneg _)
            (mul_nonneg (sq_nonneg a) (by linarith))
        have h3 : 0 ≤ A * (A * b ^ 2 + B * a ^ 2 - 2 * a * b * C) := by
          nlinarith [h2]
        have h4 : 0 ≤ A * b ^ 2 + B * a ^ 2 - 2 * a * b * C :=
          nonneg_of_mul_nonneg_right h3 hApos
        linarith
    nlinarith [key, ih]

theorem devSums_fst_nonneg (l : List (ℚ × ℚ)) : 0 ≤ (devSums l).1 :=
  List.sum_nonneg (by
    intro x hx
    obtain ⟨q, -, rfl⟩ := List.mem_map.mp hx
    exact sq_nonneg _)

theorem devSums_trd_nonneg (l : List (ℚ × ℚ)) : 0 ≤ (devSums l).2.2 :=
  List.sum_nonneg (by
    intro x hx
    obtain ⟨q, -, rfl⟩ := List.mem_map.mp hx
    exact sq_nonneg _)

theorem devSums_cauchy (l : List (ℚ × ℚ)) :
    (devSums l).2.1 ^ 2 ≤ (devSums l).1 * (devSums l).2.2 := by
  have h := list_cauchy_schwarz
    (l.map (fun p => (p.1 - meanQ (l.map Prod.fst), p.2 - meanQ (l.map Prod.snd))))
  simpa only [List.map_map, Function.comp] using h

theorem pairedNums_swap (x y : List Val) :
    pairedNums y x = (pairedNums x y).map Prod.swap := by
  unfold pairedNums
  rw [← List.zip_swap x y, List.filterMap_map, List.map_filterMap]
  congr 1
  funext p
  rcases p with ⟨u, v⟩
  cases u <;> cases v <;> rfl

theorem map_swap_fst (l : List (ℚ × ℚ)) :
    (l.map Prod.swap).map Prod.fst = l.map Prod.snd := by
  rw [List.map_map]
  rfl

theorem map_swap_snd (l : List (ℚ × ℚ)) :
    (l.map Prod.swap).map Prod.snd = l.map Prod.fst := by
  rw [List.map_map]
  rfl

theorem devSums_swap (l : List (ℚ × ℚ)) :
    devSums (l.map Prod.swap) =
      ((devSums l).2.2, (devSums l).2.1, (devSums l).1) := by
  unfold devSums
  rw [map_swap_fst, map_swap_snd]
  refine congrArg₂ Prod.mk ?_ (congrArg₂ Prod.mk ?_ ?_)
  · rw [List.map_map]
    rfl
  · rw [List.map_map]
    refine congrArg List.sum (List.map_congr_left ?_)
    intro p _
    show (p.2 - meanQ (l.map Prod.snd)) * (p.1 - meanQ (l.map Prod.fst)) = _
    ring
  · rw [List.map_map]
    rfl

theorem pearson_symm (x y : List Val) : pearson x y = pearson y x := by
  unfold pearson
  rw [pairedNums_swap x y, devSums_swap]
  exact (if_congr or_comm rfl (by rw [mul_comm])).symm

theorem zip_self (x : List Val) : x.zip x = x.map (fun v => (v, v)) := by
  induction x with
  | nil => rfl
  | cons a t ih => simp only [List.zip_cons_cons, List.map_cons, ih]

theorem pairedNums_self (x : List Val) :
    pairedNums x x = (numsOf x).map (fun a => (a, a)) := by
  unfold pairedNums numsOf
  rw [zip_self, List.filterMap_map, List.map_filterMap]
  congr 1
  funext v
  cases v <;> rfl

theorem devSums_diag (n : List ℚ) :
    devSums (n.map (fun a => (a, a))) =
      ((n.map (fun a => (a - meanQ n) ^ 2)).sum,
       (n.map (fun a => (a - meanQ n) ^ 2)).sum,
       (n.map (fun a => (a - meanQ n) ^ 2)).sum) := by
  unfold devSums
  rw [List.map_map, List.map_map,
    show (Prod.fst ∘ fun a : ℚ => (a, a)) = id from rfl,
    show (Prod.snd ∘ fun a : ℚ => (a, a)) = id from rfl, List.map_id]
  refine congrArg₂ Prod.mk ?_ (congrArg₂ Prod.mk ?_ ?_)
  · rw [List.map_map]
    rfl
  · rw [List.map_map]
    refine congrArg List.sum (List.map_congr_left ?_)
    intro a _
    show (a - meanQ n) * (a - meanQ n) = (a - meanQ n) ^ 2
    ring
  · rw [List.map_map]
    rfl

theorem sumSqDev_nonneg (n : List ℚ) (m : ℚ) :
    0 ≤ (n.map (fun a => (a - m) ^ 2)).sum :=
  List.sum_nonneg (by
    intro x hx
    obtain ⟨a, -, rfl⟩ := List.mem_map.mp hx
    exact sq_nonneg _)

theorem sumSqDev_eq_zero {n : List ℚ} {m : ℚ}
    (h : (n.map (fun a => (a - m) ^ 2)).sum = 0) : ∀ a ∈ n, a = m := by
  induction n with
  | nil => intro a ha; exact absurd ha (List.not_mem_nil a)
  | cons b t ih =>
    rw [List.map_cons, List.sum_cons] at h
    have ht : 0 ≤ (t.map (fun a => (a - m) ^ 2)).sum := sumSqDev_nonneg t m
    have hb : (b - m) ^ 2 = 0 := by nlinarith [sq_nonneg (b - m)]
    have hrest : (t.map (fun a => (a - m) ^ 2)).sum = 0 := by linarith
    intro a ha
    rcases List.mem_cons.mp ha with rfl | ha'
    · exact sub_eq_zero.mp (pow_eq_zero_iff (Nat.succ_ne_zero 1) |>.mp hb)
    · exact ih hrest a ha'

theorem sumSqDev_ne_zero {n : List ℚ} {u w : ℚ}
    (hu : u ∈ n) (hw : w ∈ n) (huw : u ≠ w) (m : ℚ) :
    (n.map (fun a => (a - m) ^ 2)).sum ≠ 0 := fun h =>
  huw ((sumSqDev_eq_zero h u hu).trans (sumSqDev_eq_zero h w hw).symm)

theorem sumSqDev_meanQ_of_const {n : List ℚ} {c : ℚ} (h : ∀ a ∈ n, a = c) :
    (n.map (fun a => (a - meanQ n) ^ 2)).sum = 0 := by
  rcases eq_or_ne n [] with rfl | hne
  · rfl
  · have hlen : (n.length : ℚ) ≠ 0 :=
      Nat.cast_ne_zero.mpr (fun h0 => hne (List.length_eq_zero.mp h0))
    have hmean : meanQ n = c := by
      unfold meanQ
      rw [List.sum_eq_card_nsmul n c h, nsmul_eq_mul]
      field_simp
    refine List.sum_eq_zero ?_
    intro x hx
    obtain ⟨a, ha, rfl⟩ := List.mem_map.mp hx
    rw [hmean, h a ha, sub_self]
    ring

theorem pairedNums_fst_mem {x y : List Val} {p : ℚ × ℚ}
    (hp : p ∈ pairedNums x y) : p.1 ∈ numsOf x := by
  unfold pairedNums at hp
  obtain ⟨⟨u, v⟩, huv, hm⟩ := List.mem_filterMap.mp hp
  have hu : u ∈ x := (List.of_mem_zip huv).1
  cases u <;> cases v <;> simp at hm
  obtain ⟨rfl, -⟩ := hm
  exact List.mem_filterMap.mpr ⟨_, hu, rfl⟩

theorem devSums_fst_of_const {l : List (ℚ × ℚ)}
    (h : ∀ p ∈ l, ∀ q ∈ l, p.1 = q.1) : (devSums l).1 = 0 := by
  have hfst : (devSums l).1 =
      ((l.map Prod.fst).map
        (fun a => (a - meanQ (l.map Prod.fst)) ^ 2)).sum := by
    unfold devSums
    rw [List.map_map]
    rfl
  rw [hfst]
  rcases eq_or_ne l [] with rfl | hne
  · rfl
  · obtain ⟨p, hp⟩ := List.exists_mem_of_ne_nil l hne
    refine @sumSqDev_meanQ_of_const _ p.1 ?_
    intro a ha
    obtain ⟨q, hq, rfl⟩ := List.mem_map.mp ha
    exact h q hq p hp

theorem pearson_diag_one {x : List Val} (h : hasVariance x) :
    pearson x x = some 1 := by
  obtain ⟨u, hu, w, hw, huw⟩ := h
  have hS0 : ((numsOf x).map (fun a => (a - meanQ (numsOf x)) ^ 2)).sum ≠ 0 :=
    sumSqDev_ne_zero hu hw huw _
  have hSnn : 0 ≤ ((numsOf x).map (fun a => (a - meanQ (numsOf x)) ^ 2)).sum :=
    sumSqDev_nonneg _ _
  have hpos : (0 : ℝ) <
      (((((numsOf x).map (fun a => (a - meanQ (numsOf x)) ^ 2)).sum : ℚ)) : ℝ) := by
    exact_mod_cast lt_of_le_of_ne hSnn (Ne.symm hS0)
  unfold pearson
  simp only [pairedNums_self, devSums_diag]
  rw [if_neg (by simp [hS0])]
  rw [Real.sqrt_mul_self hpos.le, div_self hpos.ne']

theorem pearson_none_of_zeroVariance {x y : List Val} (h : zeroVariance x) :
    pearson x y = none := by
  unfold pearson
  rw [if_pos]
  left
  refine devSums_fst_of_const ?_
  intro p hp q hq
  exact h p.1 (pairedNums_fst_mem hp) q.1 (pairedNums_fst_mem hq)

theorem pearson_bounds {x y : List Val} {r : ℝ} (h : pearson x y = some r) :
    -1 ≤ r ∧ r ≤ 1 := by
  unfold pearson at h
  by_cases hc : (devSums (pairedNums x y)).1 = 0 ∨
      (devSums (pairedNums x y)).2.2 = 0
  · rw [if_pos hc] at h
    exact absurd h (Option.noConfusion)
  · rw [if_neg hc] at h
    push_neg at hc
    have hA : (0 : ℚ) < (devSums (pairedNums x y)).1 :=
      lt_of_le_of_ne (devSums_fst_nonneg _) (Ne.symm hc.1)
    have hB : (0 : ℚ) < (devSums (pairedNums x y)).2.2 :=
      lt_of_le_of_ne (devSums_trd_nonneg _) (Ne.symm hc.2)
    have hABpos : (0 : ℝ) < ((devSums (pairedNums x y)).1 : ℝ) *
        ((devSums (pairedNums x y)).2.2 : ℝ) := by
      have hA' : (0 : ℝ) < ((devSums (pairedNums x y)).1 : ℝ) := by
        exact_mod_cast hA
      have hB' : (0 : ℝ) < ((devSums (pairedNums x y)).2.2 : ℝ) := by
        exact_mod_cast hB
      exact mul_pos hA' hB'
    have hsq : (((devSums (pairedNums x y)).2.1 : ℝ)) ^ 2 ≤
        ((devSums (pairedNums x y)).1 : ℝ) *
          ((devSums (pairedNums x y)).2.2 : ℝ) := by
      exact_mod_cast devSums_cauchy (pairedNums x y)
    have habs : |((devSums (pairedNums x y)).2.1 : ℝ)| ≤
        Real.sqrt (((devSums (pairedNums x y)).1 : ℝ) *
          ((devSums (pairedNums x y)).2.2 : ℝ)) := by
      rw [← Real.sqrt_sq_eq_abs]
      exact Real.sqrt_le_sqrt hsq
    obtain rfl : ((devSums (pairedNums x y)).2.1 : ℝ) /
        Real.sqrt (((devSums (pairedNums x y)).1 : ℝ) *
          ((devSums (pairedNums x y)).2.2 : ℝ)) = r := Option.some_inj.mp h
    have hsp : 0 < Real.sqrt (((devSums (pairedNums x y)).1 : ℝ) *
        ((devSums (pairedNums x y)).2.2 : ℝ)) := Real.sqrt_pos.mpr hABpos
    refine abs_le.mp ?_
    rw [abs_div, abs_of_nonneg hsp.le]
    exact (div_le_one hsp).mpr habs

theorem countP_enumFrom (pred : String × Dtype → Bool) :
    ∀ (l : List (String × Dtype)) (n : Nat),
      (List.enumFrom n l).countP (fun p => pred p.2) = l.countP pred := by
  intro l
  induction l with
  | nil => intro n; rfl
  | cons a t ih =>
    intro n
    simp only [List.enumFrom, List.countP_cons, ih (n + 1)]

theorem numericIdxs_length (df : DataFrame) :
    (numericIdxs df).length = (numeric_cols df).length := by
  unfold numericIdxs numeric_cols
  rw [List.length_map, List.length_map, ← List.countP_eq_length_filter,
    ← List.countP_eq_length_filter]
  exact countP_enumFrom (fun p => isNumericDtype p.2) df.header 0

theorem getD_map_lt {α β : Type} (f : α → β) (l : List α) (dA : α) (dB : β)
    {i : Nat} (h : i < l.length) : (l.map f).getD i dB = f (l.getD i dA) := by
  rw [List.getD_eq_getElem _ _ (by simpa using h), List.getElem_map,
    List.getD_eq_getElem _ _ h]

theorem corr_matrix_entry (vw : DataFrame) {a b : Nat}
    (ha : a < (numericIdxs vw).length) (hb : b < (numericIdxs vw).length) :
    ((corr_matrix vw).getD a []).getD b none =
      pearson (colCells vw ((numericIdxs vw).getD a 0))
        (colCells vw ((numericIdxs vw).getD b 0)) := by
  unfold corr_matrix
  rw [getD_map_lt _ _ 0 [] ha]
  show ((numericIdxs vw).map (fun k =>
      pearson (colCells vw ((numericIdxs vw).getD a 0))
        (colCells vw k))).getD b none = _
  rw [getD_map_lt _ _ 0 none hb]

/-- C4: over a dataset with at least two numeric columns, the correlation
matrix of the filtered view is square with one row and one column per
numeric column; it is symmetric; its diagonal entry is `1.0` at every
numeric column with nonzero variance; every defined (non-`NaN`) entry lies
in `[-1, 1]`; and every entry in the row of a zero-variance column is the
`NaN` marker (`none`). -/
theorem C4_corr_matrix_props (df : DataFrame) (j : Nat) (lo hi : ℚ)
    (_h2 : 2 ≤ (numeric_cols df).length) :
    ((corr_matrix (filtered_df df j lo hi)).length =
        (numeric_cols (filtered_df df j lo hi)).length ∧
      (∀ row ∈ corr_matrix (filtered_df df j lo hi),
        row.length = (numeric_cols (filtered_df df j lo hi)).length)) ∧
    (∀ a b : Nat, a < (numericIdxs (filtered_df df j lo hi)).length →
      b < (numericIdxs (filtered_df df j lo hi)).length →
      ((corr_matrix (filtered_df df j lo hi)).getD a []).getD b none =
        ((corr_matrix (filtered_df df j lo hi)).getD b []).getD a none) ∧
    (∀ a : Nat, a < (numericIdxs (filtered_df df j lo hi)).length →
      hasVariance (colCells (filtered_df df j lo hi)
          ((numericIdxs (filtered_df df j lo hi)).getD a 0)) →
      ((corr_matrix (filtered_df df j lo hi)).getD a []).getD a none =
        some 1) ∧
    (∀ (a b : Nat) (r : ℝ),
      a < (numericIdxs (filtered_df df j lo hi)).length →
      b < (numericIdxs (filtered_df df j lo hi)).length →
      ((corr_matrix (filtered_df df j lo hi)).getD a []).getD b none =
        some r → -1 ≤ r ∧ r ≤ 1) ∧
    (∀ a b : Nat, a < (numericIdxs (filtered_df df j lo hi)).length →
      b < (numericIdxs (filtered_df df j lo hi)).length →
      zeroVariance (colCells (filtered_df df j lo hi)
          ((numericIdxs (filtered_df df j lo hi)).getD a 0)) →
      ((corr_matrix (filtered_df df j lo hi)).getD a []).getD b none =
        none) := by
  refine ⟨⟨?_, ?_⟩, ?_, ?_, ?_, ?_⟩
  · unfold corr_matrix
    rw [List.length_map]
    exact numericIdxs_length _
  · intro row hrow
    unfold corr_matrix at hrow
    obtain ⟨i, -, rfl⟩ := List.mem_map.mp hrow
    rw [List.length_map]
    exact numericIdxs_length _
  · intro a b ha hb
    rw [corr_matrix_entry _ ha hb, corr_matrix_entry _ hb ha]
    exact pearson_symm _ _
  · intro a ha hvar
    rw [corr_matrix_entry _ ha ha]
    exact pearson_diag_one hvar
  · intro a b r ha hb hr
    rw [corr_matrix_entry _ ha hb] at hr
    exact pearson_bounds hr
  · intro a b ha hb hzero
    rw [corr_matrix_entry _ ha hb]
    exact pearson_none_of_zeroVariance hzero

theorem C4_corr_matrix_props_witness :
    2 ≤ (numeric_cols (read_csv ⟨["a", "b"], [["1", "2"], ["2", "3"]]⟩)).length ∧
    ((corr_matrix (filtered_df
          (read_csv ⟨["a", "b"], [["1", "2"], ["2", "3"]]⟩) 0 1 2)).length =
      (numeric_cols (filtered_df
          (read_csv ⟨["a", "b"], [["1", "2"], ["2", "3"]]⟩) 0 1 2)).length) :=
  ⟨by decide,
    (C4_corr_matrix_props (read_csv ⟨["a", "b"], [["1", "2"], ["2", "3"]]⟩)
      0 1 2 (by decide)).1.1⟩

/-! ## C8: export round-trip.  Digit-level groundwork -/

theorem dot_mem_renderQ (q : ℚ) : '.' ∈ renderQ q := by
  unfold renderQ
  exact List.mem_append.mpr (Or.inr (List.Mem.head _))

theorem renderQ_ne_nil (q : ℚ) : renderQ q ≠ [] := by
  intro h
  have := dot_mem_renderQ q
  rw [h] at this
  exact List.not_mem_nil _ this

theorem mk_renderQ_ne_empty (q : ℚ) : String.mk (renderQ q) ≠ "" := by
  intro h
  exact renderQ_ne_nil q (by simpa using congrArg String.data h)

theorem den_intCast_div_natCast (x : ℤ) (y : ℕ) :
    (((x : ℚ)) / ((y : ℕ) : ℚ)).den ∣ y := by
  have h := Rat.den_dvd x (y : ℤ)
  rw [Rat.divInt_eq_div] at h
  exact_mod_cast h

theorem den_natCast_div_pow (x L : ℕ) :
    (((x : ℚ)) / 10 ^ L).den ∣ 10 ^ L := by
  have h := den_intCast_div_natCast (x : ℤ) (10 ^ L)
  push_cast at h
  exact h

theorem natCast_div_isDec {x L : Nat} : IsDec (((x : ℚ)) / 10 ^ L) :=
  ⟨L, den_natCast_div_pow x L⟩

